import Mathlib

/-!
Verification of the autocompletion engine of `firebolt_cli`
(`src/firebolt_cli/completer.py`) against its design specification.

The Python module is shallowly embedded: text is Lean `String` (a list of
characters, mirroring Python's per-character string operations used here),
Python exceptions become an explicit `Except` result, and the completer
object becomes a record whose methods are state-passing functions.
The fixed keyword/function lists live in `firebolt_cli/keywords.py`, which
only supplies two constant lists of strings; the embedding is parameterized
over those two lists.
-/

set_option autoImplicit false
set_option maxRecDepth 16384

namespace FireboltCli

/-- Python `str.upper`, applied character by character. -/
def pyUpper (s : String) : String := ⟨s.data.map Char.toUpper⟩

/-- Python `big.startswith(small)`: `small` is a prefix of `big`. -/
def pyStartswith : List Char → List Char → Bool
  | _, [] => true
  | [], _ :: _ => false
  | a :: as, b :: bs => a == b && pyStartswith as bs

/-- Python `needle in hay` on strings: `needle` occurs contiguously in `hay`. -/
def pyIn (needle : List Char) : List Char → Bool
  | [] => pyStartswith [] needle
  | h :: t => pyStartswith (h :: t) needle || pyIn needle t

/-- Python `text.rfind(c)` for a one-character pattern: index of the rightmost
occurrence of `c`, `-1` if absent. -/
def rfind : List Char → Char → Int
  | [], _ => -1
  | a :: rest, c =>
    let r := rfind rest c
    if 0 ≤ r then r + 1
    else if a = c then 0 else -1

/-- Sequential `.replace('<', '&#60;').replace('>', '&#62;')`.  The first
replacement introduces no `>` character, so the two passes act independently
on each character of the original text. -/
def escapeMarkup : List Char → List Char
  | [] => []
  | c :: rest =>
    (if c = '<' then ('&' :: '#' :: '6' :: '0' :: ';' :: [])
     else if c = '>' then ('&' :: '#' :: '6' :: '2' :: ';' :: [])
     else [c]) ++ escapeMarkup rest

/-- `prepare_display_html(text, offset)`: the first `offset` characters are
wrapped in bold/red markup verbatim; the remainder has `<` and `>` escaped. -/
def prepare_display_html (text : String) (offset : Nat) : String :=
  ⟨"<b><style color='red'>".data ++ text.data.take offset
    ++ "</style></b>".data ++ escapeMarkup (text.data.drop offset)⟩

/-- The delimiter list of `extract_last_word`. -/
def delimiters : List Char := [' ', ',', '\n', ')', ';', '(', '.']

/-- `extract_last_word(text)`: everything strictly after the rightmost
occurrence of any delimiter (`max` of the per-delimiter `rfind` results,
`-1` when none occurs). -/
def extract_last_word (text : String) : String :=
  let last_position : Int := (delimiters.map (rfind text.data)).foldl max (-1)
  ⟨text.data.drop (last_position + 1).toNat⟩

/-- A `(table_name, column_name, data_type)` row from
`information_schema.columns`. -/
structure SchemaRow where
  table : String
  column : String
  declaredType : String
deriving Repr, DecidableEq

/-- One `(label, meta)` entry of `self.suggestions` (or of the per-call
dynamic candidate list). -/
structure Suggestion where
  label : String
  meta : String
deriving Repr, DecidableEq

/-- A `prompt_toolkit.completion.Completion` as constructed by
`get_completions`. -/
structure Completion where
  text : String
  start_position : Int
  display : String
  display_meta : String
deriving Repr, DecidableEq

/-- Python exceptions relevant to `populate_table_and_column_names`:
`FireboltError` (the domain-level execution error) versus any other
exception class. -/
inductive PyError where
  | fireboltError
  | otherError
deriving Repr, DecidableEq

/-- The in-progress word of a request: `extract_last_word` applied to
`document.text_before_cursor`, i.e. to the first `cursor` characters of the
full text. -/
def currentWord (text : String) (cursor : Nat) : String :=
  extract_last_word ⟨text.data.take cursor⟩

/-- The `Completion(...)` value yielded by `get_completions` for one
surviving suggestion. -/
def renderOne (offset : Nat) (s : Suggestion) : Completion :=
  { text := s.label,
    start_position := -(offset : Int),
    display := prepare_display_html s.label offset,
    display_meta := s.meta }

/-- The tokenize → filter → render pipeline of `get_completions`, applied to
an arbitrary candidate list `sugs`: uppercase the current word, stop if it is
empty, keep the candidates whose uppercased label starts with it, and yield a
`Completion` for each survivor in order. -/
def renderCompletions (sugs : List Suggestion) (text : String) (cursor : Nat) :
    List Completion :=
  let last_word := pyUpper (currentWord text cursor)
  if last_word.data.length = 0 then []
  else
    (sugs.filter (fun s => pyStartswith (pyUpper s.label).data last_word.data)).map
      (renderOne last_word.data.length)

/-- The completer state: `self.column_names` and `self.suggestions`. -/
structure FireboltAutoCompleter where
  column_names : List SchemaRow
  suggestions : List Suggestion
deriving Repr, DecidableEq

namespace FireboltAutoCompleter

/-- `__init__`: the static catalog, every keyword tagged `KEYWORD` followed by
every built-in function tagged `FUNCTION`; `column_names` starts empty.
(The background thread started here is modelled by calling
`populate_table_and_column_names` explicitly on the result.) -/
def init (KEYWORDS FUNCTIONS : List String) : FireboltAutoCompleter :=
  { column_names := [],
    suggestions :=
      KEYWORDS.map (fun keyword => ⟨keyword, "KEYWORD"⟩)
        ++ FUNCTIONS.map (fun function => ⟨function, "FUNCTION"⟩) }

/-- `populate_table_and_column_names`: the one-shot metadata query
(`cursor.execute` + `fetchall`, modelled jointly as `fetchResult`).  On
success the rows are stored and the distinct table names (Python
`list(set(...))`, here first-occurrence order) are appended tagged `TABLE`.
A `FireboltError` is swallowed leaving the state unchanged; any other
exception propagates. -/
def populate_table_and_column_names (c : FireboltAutoCompleter)
    (fetchResult : Except PyError (List SchemaRow)) :
    Except PyError FireboltAutoCompleter :=
  match fetchResult with
  | .ok data =>
      let table_names : List String := (data.map (fun d => d.table)).dedup
      .ok { column_names := data,
            suggestions := c.suggestions
              ++ table_names.map (fun table_name => ⟨table_name, "TABLE"⟩) }
  | .error .fireboltError => .ok c
  | .error e => .error e

/-- The dynamic part of `current_suggestions` in `get_completions`: one
COLUMN suggestion per row whose table name occurs in the full text. -/
def columnSuggestions (rows : List SchemaRow) (text : String) : List Suggestion :=
  (rows.filter (fun r => pyIn r.table.data text.data)).map
    (fun r => ⟨r.column, "COLUMN (" ++ r.declaredType ++ ", " ++ r.table ++ ")"⟩)

/-- The candidate universe of one `get_completions` call:
`self.suggestions + [...]`. -/
def candidateUniverse (c : FireboltAutoCompleter) (text : String) : List Suggestion :=
  c.suggestions ++ columnSuggestions c.column_names text

/-- `get_completions(document, event)`: `document.text` is `text`,
`document.text_before_cursor` is its first `cursor` characters.  The pipeline
applied to `current_suggestions = self.suggestions + [...]`; returns the
yielded completions in order. -/
def get_completions (c : FireboltAutoCompleter) (text : String) (cursor : Nat) :
    List Completion :=
  renderCompletions (c.candidateUniverse text) text cursor

/-- The method `get_completions` as a state transformer: its body only reads
`self.suggestions` and `self.column_names` (building a fresh list with `+`),
assigning to no attribute, so the state component it returns is the input
state. -/
def get_completions_step (c : FireboltAutoCompleter) (text : String)
    (cursor : Nat) : FireboltAutoCompleter × List Completion :=
  (c, c.get_completions text cursor)

end FireboltAutoCompleter

/-- The candidate universe exactly as claim C1 words it (spec §4.4 step 2):
the Static Catalog — each keyword as a KEYWORD suggestion, then each
built-in function as a FUNCTION suggestion — concatenated with the dynamic
COLUMN suggestions, and no other candidates.  Compared against the universe
the code actually uses. -/
def claimedUniverseC1 (KEYWORDS FUNCTIONS : List String) (rows : List SchemaRow)
    (text : String) : List Suggestion :=
  KEYWORDS.map (fun keyword => ⟨keyword, "KEYWORD"⟩)
    ++ FUNCTIONS.map (fun function => ⟨function, "FUNCTION"⟩)
    ++ FireboltAutoCompleter.columnSuggestions rows text

/-- The highlighted display form exactly as claim C2 words it: the first
`offset` characters of the label emphasized, and any markup-confusable
character of the label escaped — including inside the emphasized prefix.
Compared against `prepare_display_html`. -/
def claimedDisplayC2 (label : String) (offset : Nat) : String :=
  ⟨"<b><style color='red'>".data ++ escapeMarkup (label.data.take offset)
    ++ "</style></b>".data ++ escapeMarkup (label.data.drop offset)⟩

/-! ### Helper lemmas -/

theorem pyUpper_data (s : String) : (pyUpper s).data = s.data.map Char.toUpper := rfl

theorem pyUpper_length (s : String) : (pyUpper s).data.length = s.data.length :=
  List.length_map _ _

theorem pyStartswith_iff (s w : List Char) : pyStartswith s w = true ↔ w <+: s := by
  induction w generalizing s with
  | nil =>
    cases s <;> simp [pyStartswith, List.nil_prefix]
  | cons b bs ih =>
    cases s with
    | nil => simp [pyStartswith]
    | cons a as =>
      rw [List.cons_prefix_cons]
      simp only [pyStartswith, Bool.and_eq_true, beq_iff_eq, ih]
      constructor
      · rintro ⟨h1, h2⟩
        exact ⟨h1.symm, h2⟩
      · rintro ⟨h1, h2⟩
        exact ⟨h1.symm, h2⟩

theorem pyIn_iff (needle hay : List Char) : pyIn needle hay = true ↔ needle <:+: hay := by
  induction hay with
  | nil =>
    simp only [pyIn, pyStartswith_iff]
    constructor
    · intro h
      exact h.isInfix
    · intro h
      exact (List.infix_nil.mp h) ▸ List.prefix_refl []
  | cons a t ih =>
    simp [pyIn, Bool.or_eq_true, pyStartswith_iff, ih, List.infix_cons_iff]

theorem rfind_ge (l : List Char) (c : Char) : -1 ≤ rfind l c := by
  induction l with
  | nil => simp [rfind]
  | cons a rest ih =>
    simp only [rfind]
    split
    · omega
    · split <;> omega

/-- `rfind` either reports that the character is absent, or exhibits the split
at the rightmost occurrence. -/
theorem rfind_spec (l : List Char) (c : Char) :
    (rfind l c = -1 ∧ c ∉ l) ∨
      (∃ pre post, l = pre ++ c :: post ∧ c ∉ post ∧
        rfind l c = (pre.length : Int)) := by
  induction l with
  | nil => exact Or.inl ⟨rfl, List.not_mem_nil c⟩
  | cons a rest ih =>
    rcases ih with ⟨h1, h2⟩ | ⟨pre, post, heq, hnot, hr⟩
    · by_cases hac : a = c
      · refine Or.inr ⟨[], rest, by simp [hac], h2, ?_⟩
        simp [rfind, h1, hac]
      · refine Or.inl ⟨?_, ?_⟩
        · simp [rfind, h1, hac]
        · intro hmem
          rcases List.mem_cons.mp hmem with h | h
          · exact hac h.symm
          · exact h2 h
    · refine Or.inr ⟨a :: pre, post, by rw [heq]; rfl, hnot, ?_⟩
      simp only [rfind, hr]
      rw [if_pos (show (0 : Int) ≤ (pre.length : Int) by omega)]
      simp only [List.length_cons]
      push_cast
      omega

theorem rfind_eq_neg_one_of_not_mem {l : List Char} {c : Char} (h : c ∉ l) :
    rfind l c = -1 := by
  rcases rfind_spec l c with ⟨h1, _⟩ | ⟨pre, post, heq, _, _⟩
  · exact h1
  · exact absurd (heq ▸ List.mem_append_right pre (List.mem_cons_self c post)) h

/-- A character occurring in the suffix `l.drop k` has its rightmost
occurrence at index at least `k`. -/
theorem le_rfind_of_mem_drop {l : List Char} {c : Char} {k : Nat}
    (h : c ∈ l.drop k) : (k : Int) ≤ rfind l c := by
  induction l generalizing k with
  | nil => simp at h
  | cons a rest ih =>
    cases k with
    | zero =>
      rcases rfind_spec (a :: rest) c with ⟨_, h2⟩ | ⟨pre, post, _, _, hr⟩
      · exact absurd (by simpa using h) h2
      · rw [hr]; omega
    | succ j =>
      have hj : (j : Int) ≤ rfind rest c := ih (by simpa using h)
      have hge : (0 : Int) ≤ rfind rest c := le_trans (by omega) hj
      simp only [rfind]
      rw [if_pos hge]
      push_cast
      omega

/-- Folding `max` over a list of integers: the result bounds every element
and is either the seed or an element. -/
theorem foldl_max_spec (xs : List Int) (a : Int) :
    (∀ x ∈ xs, x ≤ xs.foldl max a) ∧ a ≤ xs.foldl max a ∧
      (xs.foldl max a = a ∨ ∃ x ∈ xs, xs.foldl max a = x) := by
  induction xs generalizing a with
  | nil => simp
  | cons x rest ih =>
    obtain ⟨ih1, ih2, ih3⟩ := ih (max a x)
    refine ⟨?_, ?_, ?_⟩
    · intro y hy
      rcases List.mem_cons.mp hy with h | h
      · subst h; exact le_trans (le_max_right a y) ih2
      · exact ih1 y h
    · exact le_trans (le_max_left a x) ih2
    · rcases ih3 with h | ⟨y, hy, h⟩
      · rcases max_choice a x with hm | hm
        · exact Or.inl (by rw [List.foldl_cons, h, hm])
        · exact Or.inr ⟨x, List.mem_cons_self x rest, by rw [List.foldl_cons, h, hm]⟩
      · exact Or.inr ⟨y, List.mem_cons_of_mem x hy, h⟩

/-- Membership in the output of the rendering pipeline: exactly the
renderings of the candidates whose uppercased label starts with the
(non-empty) uppercased current word. -/
theorem mem_renderCompletions (sugs : List Suggestion) (text : String)
    (cursor : Nat) (comp : Completion) :
    comp ∈ renderCompletions sugs text cursor ↔
      ((currentWord text cursor).data ≠ [] ∧
        ∃ s ∈ sugs,
          pyStartswith (pyUpper s.label).data
            (pyUpper (currentWord text cursor)).data = true ∧
          comp = renderOne (currentWord text cursor).data.length s) := by
  unfold renderCompletions
  by_cases h : (pyUpper (currentWord text cursor)).data.length = 0
  · rw [if_pos h]
    rw [pyUpper_length] at h
    simp [List.length_eq_zero.mp h]
  · rw [if_neg h]
    rw [pyUpper_length] at h
    constructor
    · intro hmem
      rcases List.mem_map.mp hmem with ⟨s, hs, hrend⟩
      rcases List.mem_filter.mp hs with ⟨hsugs, hmatch⟩
      exact ⟨fun hnil => h (by rw [hnil]; rfl), s, hsugs, hmatch,
        by rw [← hrend, pyUpper_length]⟩
    · rintro ⟨_, s, hsugs, hmatch, hrend⟩
      refine List.mem_map.mpr ⟨s, List.mem_filter.mpr ⟨hsugs, hmatch⟩, ?_⟩
      rw [hrend, pyUpper_length]

theorem get_completions_eq (c : FireboltAutoCompleter) (text : String)
    (cursor : Nat) :
    c.get_completions text cursor =
      renderCompletions (c.suggestions ++
        FireboltAutoCompleter.columnSuggestions c.column_names text) text cursor :=
  rfl

/-- A string is nonempty iff its character list is. -/
theorem string_ne_empty_iff (s : String) : s ≠ "" ↔ s.data ≠ [] := by
  constructor
  · intro h hdata
    exact h (by cases s with | mk d => cases hdata; rfl)
  · intro h heq
    exact h (by rw [heq])

example : extract_last_word "SELECT a, b" = "b" := by decide
example : extract_last_word "SELECT " = "" := by decide
example : extract_last_word "abc" = "abc" := by decide
example : pyIn "users".data "SELECT id FROM users WHERE i".data = true := by decide
example : pyIn "xers".data "SELECT id FROM users WHERE i".data = false := by decide
example : prepare_display_html "a<b>c" 1 =
    "<b><style color='red'>a</style></b>&#60;b&#62;c" := by decide

/-! ### Claim theorems -/

/-- C4: for every input text, `extract_last_word` returns the substring
strictly after the rightmost occurrence in the whole text of any delimiter
from {space, comma, newline, close-paren, semicolon, open-paren, period},
and the whole text when no delimiter occurs — i.e. the text splits as
`pre ++ word` where the word contains no delimiter and `pre` is empty or
ends with a delimiter; in particular the result is "b" on "SELECT a, b" and
"" on "SELECT ". -/
theorem C4_extract_last_word :
    (∀ text : String, ∃ pre : List Char,
      text.data = pre ++ (extract_last_word text).data ∧
      (∀ ch ∈ (extract_last_word text).data, ch ∉ delimiters) ∧
      (pre = [] ∨ ∃ d ∈ delimiters, pre.getLast? = some d)) ∧
    extract_last_word "SELECT a, b" = "b" ∧
    extract_last_word "SELECT " = "" := by
  refine ⟨?_, by decide, by decide⟩
  intro text
  have hword : (extract_last_word text).data =
      text.data.drop
        (((delimiters.map (rfind text.data)).foldl max (-1) + 1)).toNat := rfl
  obtain ⟨hbound, hseed, hcases⟩ :=
    foldl_max_spec (delimiters.map (rfind text.data)) (-1)
  by_cases hlp : (delimiters.map (rfind text.data)).foldl max (-1) = -1
  · refine ⟨[], ?_, ?_, Or.inl rfl⟩
    · rw [hword, hlp]
      simp
    · intro ch hch hdelim
      have h0 : (0 : Int) ≤ rfind text.data ch := by
        apply le_rfind_of_mem_drop (k := 0)
        rw [hword, hlp] at hch
        simpa using hch
      have hle : rfind text.data ch ≤ (delimiters.map (rfind text.data)).foldl max (-1) :=
        hbound _ (List.mem_map.mpr ⟨ch, hdelim, rfl⟩)
      omega
  · have h0 : (0 : Int) ≤ (delimiters.map (rfind text.data)).foldl max (-1) := by omega
    rcases hcases with h | ⟨v, hv, hfold⟩
    · exact absurd h hlp
    rcases List.mem_map.mp hv with ⟨d0, hd0, hrfd0⟩
    rcases rfind_spec text.data d0 with ⟨h1, _⟩ | ⟨pre, post, heq, _, hr⟩
    · rw [← hrfd0, h1] at hfold
      exact absurd hfold hlp
    have hlpval : (delimiters.map (rfind text.data)).foldl max (-1) = (pre.length : Int) := by
      rw [hfold, ← hrfd0, hr]
    have hdrop : (extract_last_word text).data = post := by
      rw [hword, hlpval]
      have htN : ((pre.length : Int) + 1).toNat = pre.length + 1 := by omega
      rw [htN, heq]
      have hsplit : pre ++ d0 :: post = (pre ++ [d0]) ++ post := by simp
      rw [hsplit]
      have hlen : (pre ++ [d0]).length = pre.length + 1 := by simp
      rw [← hlen, List.drop_left]
    refine ⟨pre ++ [d0], ?_, ?_, Or.inr ⟨d0, hd0, ?_⟩⟩
    · rw [hdrop, heq]
      simp
    · intro ch hch hdelim
      have hchdrop : ch ∈ text.data.drop (pre.length + 1) := by
        have : text.data.drop (pre.length + 1) = post := by
          rw [heq]
          have hsplit : pre ++ d0 :: post = (pre ++ [d0]) ++ post := by simp
          rw [hsplit]
          have hlen : (pre ++ [d0]).length = pre.length + 1 := by simp
          rw [← hlen, List.drop_left]
        rw [this]
        rw [hdrop] at hch
        exact hch
      have hge : ((pre.length + 1 : Nat) : Int) ≤ rfind text.data ch :=
        le_rfind_of_mem_drop hchdrop
      have hle : rfind text.data ch ≤ (delimiters.map (rfind text.data)).foldl max (-1) :=
        hbound _ (List.mem_map.mpr ⟨ch, hdelim, rfl⟩)
      rw [hlpval] at hle
      push_cast at hge
      omega
    · simp

/-- C3: for every candidate in the universe with label L and every non-empty
current word W, the candidate appears in the output of the completion call
if and only if the uppercased L starts with the uppercased W. -/
theorem C3_case_insensitive_prefix_law (c : FireboltAutoCompleter)
    (text : String) (cursor : Nat) (s : Suggestion)
    (hs : s ∈ c.candidateUniverse text)
    (hW : currentWord text cursor ≠ "") :
    (∃ comp ∈ c.get_completions text cursor, comp.text = s.label) ↔
      (pyUpper (currentWord text cursor)).data <+: (pyUpper s.label).data := by
  rw [string_ne_empty_iff] at hW
  constructor
  · rintro ⟨comp, hcomp, htext⟩
    rcases (mem_renderCompletions (c.candidateUniverse text) text cursor comp).mp
        hcomp with ⟨-, s', hs', hmatch, hrend⟩
    have hlabel : s'.label = s.label := by
      rw [hrend] at htext
      exact htext
    rw [hlabel] at hmatch
    exact (pyStartswith_iff _ _).mp hmatch
  · intro hpre
    refine ⟨renderOne (currentWord text cursor).data.length s, ?_, rfl⟩
    exact (mem_renderCompletions (c.candidateUniverse text) text cursor _).mpr
      ⟨hW, s, hs, (pyStartswith_iff _ _).mpr hpre, rfl⟩

/-- Witness for C3 at a concrete input: catalog with the single keyword
"SELECT", text "SEL", cursor at the end. -/
theorem C3_witness :
    (∃ comp ∈ (FireboltAutoCompleter.init ["SELECT"] []).get_completions "SEL" 3,
        comp.text = "SELECT") ↔
      (pyUpper (currentWord "SEL" 3)).data <+: (pyUpper "SELECT").data :=
  C3_case_insensitive_prefix_law (FireboltAutoCompleter.init ["SELECT"] [])
    "SEL" 3 ⟨"SELECT", "KEYWORD"⟩ (by decide) (by decide)

/-- C8: if the extracted current word is empty then the completion call
yields the empty sequence regardless of catalog or Schema Index contents;
and an input on which no candidate matches simply yields an empty sequence
(the call is a total function — no error reaches the caller). -/
theorem C8_empty_word_empty_output (c : FireboltAutoCompleter) (text : String)
    (cursor : Nat) :
    (currentWord text cursor = "" → c.get_completions text cursor = []) ∧
    ((∀ s ∈ c.candidateUniverse text,
        pyStartswith (pyUpper s.label).data
          (pyUpper (currentWord text cursor)).data = false) →
      c.get_completions text cursor = []) := by
  constructor
  · intro h
    show renderCompletions (c.candidateUniverse text) text cursor = []
    unfold renderCompletions
    rw [if_pos (by rw [h]; rfl)]
  · intro h
    show renderCompletions (c.candidateUniverse text) text cursor = []
    unfold renderCompletions
    by_cases hlen : (pyUpper (currentWord text cursor)).data.length = 0
    · rw [if_pos hlen]
    · rw [if_neg hlen]
      have hfilter : (c.candidateUniverse text).filter
          (fun s => pyStartswith (pyUpper s.label).data
            (pyUpper (currentWord text cursor)).data) = [] := by
        apply List.filter_eq_nil_iff.mpr
        intro s hs
        rw [h s hs]
        exact Bool.false_ne_true
      rw [hfilter, List.map_nil]

/-- Witness for C8: a text ending in a space yields nothing even with a
matching catalog; a word matching no candidate yields nothing. -/
theorem C8_witness :
    (FireboltAutoCompleter.init ["SELECT"] []).get_completions "SELECT " 7 = [] ∧
    (FireboltAutoCompleter.init ["B"] []).get_completions "a" 1 = [] :=
  ⟨(C8_empty_word_empty_output (FireboltAutoCompleter.init ["SELECT"] [])
      "SELECT " 7).1 (by decide),
   (C8_empty_word_empty_output (FireboltAutoCompleter.init ["B"] [])
      "a" 1).2 (by decide)⟩

/-- C9: a completion call leaves the engine's state unchanged — the
suggestion catalog and the Schema Index rows are identical before and after
the call — and a second call from the resulting state with the same inputs
returns the same sequence. -/
theorem C9_no_mutation (c : FireboltAutoCompleter) (text : String)
    (cursor : Nat) :
    (c.get_completions_step text cursor).1 = c ∧
    (c.get_completions_step text cursor).1.suggestions = c.suggestions ∧
    (c.get_completions_step text cursor).1.column_names = c.column_names ∧
    ((c.get_completions_step text cursor).1.get_completions_step text cursor).2 =
      (c.get_completions_step text cursor).2 :=
  ⟨rfl, rfl, rfl, rfl⟩

/-- C6: a domain-level execution error (`FireboltError`) from the one-shot
metadata query is swallowed and leaves the completer unchanged — so with the
Schema Index still empty, every completion drawn afterwards comes from the
static catalog only — while any other exception propagates out of the
loader. -/
theorem C6_load_failure_policy :
    (∀ c : FireboltAutoCompleter,
      c.populate_table_and_column_names (.error .fireboltError) = .ok c) ∧
    (∀ c : FireboltAutoCompleter,
      c.populate_table_and_column_names (.error .otherError) =
        .error .otherError) ∧
    (∀ c : FireboltAutoCompleter, c.column_names = [] →
      ∀ (text : String) (cursor : Nat) (comp : Completion),
        comp ∈ c.get_completions text cursor →
        ∃ s ∈ c.suggestions, comp.text = s.label ∧ comp.display_meta = s.meta) := by
  refine ⟨fun c => rfl, fun c => rfl, ?_⟩
  intro c hc text cursor comp hcomp
  rcases (mem_renderCompletions (c.candidateUniverse text) text cursor comp).mp
      hcomp with ⟨-, s, hs, -, hrend⟩
  have hsug : s ∈ c.suggestions := by
    rcases List.mem_append.mp hs with h | h
    · exact h
    · rw [hc] at h
      exact absurd h (List.not_mem_nil s)
  exact ⟨s, hsug, by rw [hrend]; rfl, by rw [hrend]; rfl⟩

/-- Witness for C6: the policy at a concrete one-keyword completer, with the
completion produced for the text "A". -/
theorem C6_witness :
    (FireboltAutoCompleter.init ["A"] []).populate_table_and_column_names
        (.error .fireboltError) = .ok (FireboltAutoCompleter.init ["A"] []) ∧
    (FireboltAutoCompleter.init ["A"] []).populate_table_and_column_names
        (.error .otherError) = .error .otherError ∧
    ∃ s ∈ (FireboltAutoCompleter.init ["A"] []).suggestions,
      (Completion.mk "A" (-1) (prepare_display_html "A" 1) "KEYWORD").text =
          s.label ∧
      (Completion.mk "A" (-1) (prepare_display_html "A" 1) "KEYWORD").display_meta =
          s.meta :=
  ⟨C6_load_failure_policy.1 (FireboltAutoCompleter.init ["A"] []),
   C6_load_failure_policy.2.1 (FireboltAutoCompleter.init ["A"] []),
   C6_load_failure_policy.2.2 (FireboltAutoCompleter.init ["A"] []) rfl "A" 1
     (Completion.mk "A" (-1) (prepare_display_html "A" 1) "KEYWORD") (by decide)⟩

/-- C5: every SchemaRow of the populated Schema Index whose table name is a
substring of the full input text contributes a COLUMN candidate labeled with
the column name and detail "COLUMN (type, table)", offered whenever the
current word matches it; in particular, after loading the row
(users, id, int), completing "SELECT id FROM users WHERE i" yields the
candidate "id" with detail "COLUMN (int, users)". -/
theorem C5_column_candidates :
    (∀ (c : FireboltAutoCompleter) (text : String) (cursor : Nat)
        (row : SchemaRow),
      row ∈ c.column_names →
      row.table.data <:+: text.data →
      currentWord text cursor ≠ "" →
      (pyUpper (currentWord text cursor)).data <+: (pyUpper row.column).data →
      ∃ comp ∈ c.get_completions text cursor,
        comp.text = row.column ∧
        comp.display_meta =
          "COLUMN (" ++ row.declaredType ++ ", " ++ row.table ++ ")") ∧
    (∃ c' : FireboltAutoCompleter,
      (FireboltAutoCompleter.init ["SELECT", "FROM", "WHERE"]
          []).populate_table_and_column_names (.ok [⟨"users", "id", "int"⟩]) =
        .ok c' ∧
      ∃ comp ∈ c'.get_completions "SELECT id FROM users WHERE i" 28,
        comp.text = "id" ∧ comp.display_meta = "COLUMN (int, users)") := by
  constructor
  · intro c text cursor row hrow hinfix hW hpre
    have hmem : (⟨row.column,
        "COLUMN (" ++ row.declaredType ++ ", " ++ row.table ++ ")"⟩ : Suggestion)
        ∈ FireboltAutoCompleter.columnSuggestions c.column_names text :=
      List.mem_map.mpr
        ⟨row, List.mem_filter.mpr ⟨hrow, (pyIn_iff _ _).mpr hinfix⟩, rfl⟩
    refine ⟨renderOne (currentWord text cursor).data.length
      ⟨row.column, "COLUMN (" ++ row.declaredType ++ ", " ++ row.table ++ ")"⟩,
      ?_, rfl, rfl⟩
    exact (mem_renderCompletions (c.candidateUniverse text) text cursor _).mpr
      ⟨(string_ne_empty_iff _).mp hW, _,
        List.mem_append_right c.suggestions hmem,
        (pyStartswith_iff _ _).mpr hpre, rfl⟩
  · refine ⟨⟨[⟨"users", "id", "int"⟩],
      [⟨"SELECT", "KEYWORD"⟩, ⟨"FROM", "KEYWORD"⟩, ⟨"WHERE", "KEYWORD"⟩,
        ⟨"users", "TABLE"⟩]⟩, rfl,
      renderOne 1 ⟨"id", "COLUMN (int, users)"⟩, by decide, rfl, rfl⟩

/-- Witness for C5's universal part: a one-row index, text "users i". -/
theorem C5_witness :
    ∃ comp ∈ (⟨[⟨"users", "id", "int"⟩], []⟩ :
        FireboltAutoCompleter).get_completions "users i" 7,
      comp.text = "id" ∧ comp.display_meta = "COLUMN (int, users)" :=
  C5_column_candidates.1 ⟨[⟨"users", "id", "int"⟩], []⟩ "users i" 7
    ⟨"users", "id", "int"⟩ (by decide) (by decide) (by decide) (by decide)

/-- C10: a successful metadata load appends to the catalog one suggestion
per distinct table name of the loaded rows, tagged "TABLE" (order among them
unspecified — here, first-occurrence order); each such candidate is
thereafter offered to any matching current word whether or not the table
name occurs in the input text; and they sit between the static functions and
the COLUMN candidates in the universe. -/
theorem C10_table_candidates :
    (∀ (c : FireboltAutoCompleter) (data : List SchemaRow)
        (c' : FireboltAutoCompleter),
      c.populate_table_and_column_names (.ok data) = .ok c' →
      ∃ tbl : List Suggestion,
        c'.suggestions = c.suggestions ++ tbl ∧
        List.Perm (tbl.map Suggestion.label) ((data.map (fun d => d.table)).dedup) ∧
        ∀ s ∈ tbl, s.meta = "TABLE") ∧
    (∀ (c : FireboltAutoCompleter) (text : String) (cursor : Nat) (t : String),
      (⟨t, "TABLE"⟩ : Suggestion) ∈ c.suggestions →
      currentWord text cursor ≠ "" →
      (pyUpper (currentWord text cursor)).data <+: (pyUpper t).data →
      ∃ comp ∈ c.get_completions text cursor,
        comp.text = t ∧ comp.display_meta = "TABLE") ∧
    (∀ (K F : List String) (data : List SchemaRow) (text : String)
        (c' : FireboltAutoCompleter),
      (FireboltAutoCompleter.init K F).populate_table_and_column_names
          (.ok data) = .ok c' →
      c'.candidateUniverse text =
        K.map (fun keyword => ⟨keyword, "KEYWORD"⟩)
          ++ F.map (fun function => ⟨function, "FUNCTION"⟩)
          ++ (data.map (fun d => d.table)).dedup.map
              (fun table_name => ⟨table_name, "TABLE"⟩)
          ++ FireboltAutoCompleter.columnSuggestions data text) := by
  refine ⟨?_, ?_, ?_⟩
  · intro c data c' h
    rw [FireboltAutoCompleter.populate_table_and_column_names,
      Except.ok.injEq] at h
    refine ⟨(data.map (fun d => d.table)).dedup.map
      (fun table_name => ⟨table_name, "TABLE"⟩), ?_, ?_, ?_⟩
    · rw [← h]
    · have h1 : List.map
          (Suggestion.label ∘ fun table_name => (⟨table_name, "TABLE"⟩ : Suggestion))
          ((data.map (fun d => d.table)).dedup) =
          (data.map (fun d => d.table)).dedup := List.map_id _
      rw [List.map_map, h1]
    · intro s hs
      rcases List.mem_map.mp hs with ⟨t, -, hts⟩
      rw [← hts]
  · intro c text cursor t hmem hW hpre
    refine ⟨renderOne (currentWord text cursor).data.length ⟨t, "TABLE"⟩, ?_, rfl, rfl⟩
    exact (mem_renderCompletions (c.candidateUniverse text) text cursor _).mpr
      ⟨(string_ne_empty_iff _).mp hW, ⟨t, "TABLE"⟩,
        List.mem_append_left _ hmem, (pyStartswith_iff _ _).mpr hpre, rfl⟩
  · intro K F data text c' h
    rw [FireboltAutoCompleter.populate_table_and_column_names,
      Except.ok.injEq] at h
    rw [← h]
    simp only [FireboltAutoCompleter.candidateUniverse,
      FireboltAutoCompleter.init, List.append_assoc]

/-- Witness for C10 at concrete inputs: a load of one row (table "t"), a
catalog holding the TABLE suggestion "users" completed on "us" (a text not
containing "users"), and the universe of the loaded completer. -/
theorem C10_witness :
    (∃ tbl : List Suggestion,
      (⟨[⟨"t", "c", "ty"⟩], [⟨"t", "TABLE"⟩]⟩ :
          FireboltAutoCompleter).suggestions =
        (FireboltAutoCompleter.init [] []).suggestions ++ tbl ∧
      List.Perm (tbl.map Suggestion.label)
        ((([⟨"t", "c", "ty"⟩] : List SchemaRow).map (fun d => d.table)).dedup) ∧
      ∀ s ∈ tbl, s.meta = "TABLE") ∧
    (∃ comp ∈ (⟨[], [⟨"users", "TABLE"⟩]⟩ :
        FireboltAutoCompleter).get_completions "us" 2,
      comp.text = "users" ∧ comp.display_meta = "TABLE") ∧
    (⟨[⟨"t", "c", "ty"⟩], [⟨"t", "TABLE"⟩]⟩ :
        FireboltAutoCompleter).candidateUniverse "x" =
      ([] : List String).map (fun keyword => ⟨keyword, "KEYWORD"⟩)
        ++ ([] : List String).map (fun function => ⟨function, "FUNCTION"⟩)
        ++ (([⟨"t", "c", "ty"⟩] : List SchemaRow).map (fun d => d.table)).dedup.map
            (fun table_name => ⟨table_name, "TABLE"⟩)
        ++ FireboltAutoCompleter.columnSuggestions [⟨"t", "c", "ty"⟩] "x" :=
  ⟨C10_table_candidates.1 (FireboltAutoCompleter.init [] []) [⟨"t", "c", "ty"⟩]
      ⟨[⟨"t", "c", "ty"⟩], [⟨"t", "TABLE"⟩]⟩ rfl,
   C10_table_candidates.2.1 ⟨[], [⟨"users", "TABLE"⟩]⟩ "us" 2 "users"
      (by decide) (by decide) (by decide),
   C10_table_candidates.2.2 [] [] [⟨"t", "c", "ty"⟩] "x"
      ⟨[⟨"t", "c", "ty"⟩], [⟨"t", "TABLE"⟩]⟩ rfl⟩

/-- C1 counterexample: after a successful load of the row (t, c, int) the
code's output on text "t" contains the TABLE candidate "t", while the
pipeline run on the universe the claim describes (static catalog plus COLUMN
suggestions, nothing else) yields no such candidate — so the claimed
universe equation fails at this concrete request. -/
theorem C1_counterexample :
    (FireboltAutoCompleter.init [] []).populate_table_and_column_names
        (.ok [⟨"t", "c", "int"⟩]) =
      .ok ⟨[⟨"t", "c", "int"⟩], [⟨"t", "TABLE"⟩]⟩ ∧
    (⟨[⟨"t", "c", "int"⟩], [⟨"t", "TABLE"⟩]⟩ :
        FireboltAutoCompleter).get_completions "t" 1 ≠
      renderCompletions (claimedUniverseC1 [] [] [⟨"t", "c", "int"⟩] "t") "t" 1 :=
  ⟨rfl, by decide⟩

/-- C1 amended: for every completion request, the candidate universe is the
engine's current suggestion catalog — after a successful load: the static
keywords, then the static functions, then one TABLE suggestion per distinct
loaded table name — concatenated with one COLUMN suggestion per SchemaRow
whose table name is a substring of the full input text, and matching
candidates are emitted in exactly this order, with no other candidates and
no reordering. -/
theorem C1_amended :
    (∀ (c : FireboltAutoCompleter) (text : String) (cursor : Nat),
      c.get_completions text cursor =
        renderCompletions (c.suggestions ++
          FireboltAutoCompleter.columnSuggestions c.column_names text)
          text cursor) ∧
    (∀ (K F : List String) (text : String) (cursor : Nat),
      (FireboltAutoCompleter.init K F).get_completions text cursor =
        renderCompletions
          (K.map (fun keyword => ⟨keyword, "KEYWORD"⟩)
            ++ F.map (fun function => ⟨function, "FUNCTION"⟩)
            ++ FireboltAutoCompleter.columnSuggestions [] text) text cursor) ∧
    (∀ (K F : List String) (data : List SchemaRow) (text : String)
        (cursor : Nat) (c' : FireboltAutoCompleter),
      (FireboltAutoCompleter.init K F).populate_table_and_column_names
          (.ok data) = .ok c' →
      c'.get_completions text cursor =
        renderCompletions
          (K.map (fun keyword => ⟨keyword, "KEYWORD"⟩)
            ++ F.map (fun function => ⟨function, "FUNCTION"⟩)
            ++ (data.map (fun d => d.table)).dedup.map
                (fun table_name => ⟨table_name, "TABLE"⟩)
            ++ FireboltAutoCompleter.columnSuggestions data text)
          text cursor) := by
  refine ⟨fun c text cursor => rfl, ?_, ?_⟩
  · intro K F text cursor
    show renderCompletions _ text cursor = renderCompletions _ text cursor
    rw [FireboltAutoCompleter.candidateUniverse, FireboltAutoCompleter.init,
      List.append_assoc]
  · intro K F data text cursor c' h
    rw [FireboltAutoCompleter.populate_table_and_column_names,
      Except.ok.injEq] at h
    rw [FireboltAutoCompleter.get_completions, ← h]
    simp only [FireboltAutoCompleter.candidateUniverse,
      FireboltAutoCompleter.init, List.append_assoc]

/-- Witness for C1's amended claim at concrete inputs, with the post-load
part instantiated at the state loaded from one row. -/
theorem C1_amended_witness :
    (⟨[⟨"t", "c", "int"⟩], [⟨"t", "TABLE"⟩]⟩ :
        FireboltAutoCompleter).get_completions "t" 1 =
      renderCompletions
        (([] : List String).map (fun keyword => ⟨keyword, "KEYWORD"⟩)
          ++ ([] : List String).map (fun function => ⟨function, "FUNCTION"⟩)
          ++ (([⟨"t", "c", "int"⟩] : List SchemaRow).map (fun d => d.table)).dedup.map
              (fun table_name => ⟨table_name, "TABLE"⟩)
          ++ FireboltAutoCompleter.columnSuggestions [⟨"t", "c", "int"⟩] "t")
        "t" 1 :=
  C1_amended.2.2 [] [] [⟨"t", "c", "int"⟩] "t" 1
    ⟨[⟨"t", "c", "int"⟩], [⟨"t", "TABLE"⟩]⟩ rfl

/-- C2 counterexample: a loaded column named "&#60;c" (written here as the
two-character label with a less-than sign) survives for the current word of
the same two characters; the code emphasizes the first two characters of the
label verbatim — the less-than sign is not escaped — so the fully-escaped
display form the claim describes differs from the emitted one at this
concrete request. -/
theorem C2_counterexample :
    (FireboltAutoCompleter.init [] []).populate_table_and_column_names
        (.ok [⟨"t", "<c", "x"⟩]) =
      .ok ⟨[⟨"t", "<c", "x"⟩], [⟨"t", "TABLE"⟩]⟩ ∧
    (⟨[⟨"t", "<c", "x"⟩], [⟨"t", "TABLE"⟩]⟩ :
        FireboltAutoCompleter).get_completions "t <c" 4 =
      [⟨"<c", -2, prepare_display_html "<c" 2, "COLUMN (x, t)"⟩] ∧
    prepare_display_html "<c" 2 ≠ claimedDisplayC2 "<c" 2 :=
  ⟨rfl, by decide, by decide⟩

/-- C2 amended: every emitted completion carries a negative insertion offset
whose magnitude is the length of the current word (which never exceeds the
label's length), and a highlighted display form in which exactly the first
len(currentWord) characters of the label are emphasized verbatim while the
markup-confusable characters in the remainder of the label are escaped. -/
theorem C2_rendered_completion (c : FireboltAutoCompleter) (text : String)
    (cursor : Nat) (comp : Completion)
    (h : comp ∈ c.get_completions text cursor) :
    comp.start_position = -(((currentWord text cursor).data.length : Int)) ∧
    (currentWord text cursor).data.length ≤ comp.text.data.length ∧
    comp.display = ⟨"<b><style color='red'>".data
      ++ comp.text.data.take (currentWord text cursor).data.length
      ++ "</style></b>".data
      ++ escapeMarkup (comp.text.data.drop (currentWord text cursor).data.length)⟩ := by
  rcases (mem_renderCompletions (c.candidateUniverse text) text cursor comp).mp
      h with ⟨-, s, -, hmatch, hrend⟩
  have hlen : ((pyUpper (currentWord text cursor)).data).length ≤
      ((pyUpper s.label).data).length :=
    ((pyStartswith_iff _ _).mp hmatch).length_le
  rw [pyUpper_length, pyUpper_length] at hlen
  refine ⟨by rw [hrend]; rfl, ?_, by rw [hrend]; rfl⟩
  rw [hrend]
  exact hlen

/-- Witness for C2's amended claim: the completion emitted for the keyword
"SELECT" on text "SEL". -/
theorem C2_rendered_completion_witness :
    (Completion.mk "SELECT" (-3) (prepare_display_html "SELECT" 3)
        "KEYWORD").start_position =
      -(((currentWord "SEL" 3).data.length : Int)) ∧
    (currentWord "SEL" 3).data.length ≤ ("SELECT" : String).data.length ∧
    (Completion.mk "SELECT" (-3) (prepare_display_html "SELECT" 3)
        "KEYWORD").display =
      ⟨"<b><style color='red'>".data
        ++ ("SELECT" : String).data.take (currentWord "SEL" 3).data.length
        ++ "</style></b>".data
        ++ escapeMarkup
            (("SELECT" : String).data.drop (currentWord "SEL" 3).data.length)⟩ :=
  C2_rendered_completion (FireboltAutoCompleter.init ["SELECT"] []) "SEL" 3
    (Completion.mk "SELECT" (-3) (prepare_display_html "SELECT" 3) "KEYWORD")
    (by decide)

end FireboltCli
